import Mathlib

/-
Verification of the local block storage engine: the reference codec and
backend registry (package agro) and the mfile-backed block store
(package block).  Machine integers (uint64) are modelled as Nat with
explicit bounds; byte slices are lists of Nat; Go panics are modelled as
Option results (none = process abort); Go error returns are modelled as
Option / Except error values.
-/

namespace Agro

/-- Little-endian base-256 bytes: the image `binary.Write` with
`binary.LittleEndian` produces for an unsigned integer field of the given
byte width. -/
def leBytes : Nat → Nat → List Nat
  | 0, _ => []
  | n + 1, v => v % 256 :: leBytes n (v / 256)

/-- Little-endian decoding of a byte list, as `binary.Read` performs it. -/
def leInv : List Nat → Nat
  | [] => 0
  | b :: rest => b + 256 * leInv rest

/-- A value representable in a Go uint64 (VolumeID, INodeID, IndexID). -/
abbrev isU64 (v : Nat) : Prop := v < 256 ^ 8

/-- INodeRef is a reference to a unique INode in the filesystem. -/
structure INodeRef where
  Volume : Nat
  INode : Nat
deriving DecidableEq

/-- BlockRef is the identifier for a unique block in the filesystem.  In the
source the INodeRef is an embedded field laid out first, so its encoding is a
prefix of the BlockRef encoding. -/
structure BlockRef extends INodeRef where
  Index : Nat
deriving DecidableEq

abbrev INodeRef.WF (i : INodeRef) : Prop := isU64 i.Volume ∧ isU64 i.INode

abbrev BlockRef.WF (b : BlockRef) : Prop :=
  isU64 b.Volume ∧ isU64 b.INode ∧ isU64 b.Index

def INodeRefByteSize : Nat := 8 * 2

def BlockRefByteSize : Nat := 8 * 3

/-- The bytes `binary.Write` emits for an INodeRef: Volume then INode, each
8 bytes little-endian. -/
def INodeRef.bytes (i : INodeRef) : List Nat :=
  leBytes 8 i.Volume ++ leBytes 8 i.INode

/-- INodeRef.ToBytes from the source: serialize, then panic (modelled as
`none`) unless the buffer length equals INodeRefByteSize. -/
def INodeRef.ToBytes (i : INodeRef) : Option (List Nat) :=
  if (INodeRef.bytes i).length ≠ INodeRefByteSize then none
  else some (INodeRef.bytes i)

/-- The bytes `binary.Write` emits for a BlockRef: the embedded INodeRef
(Volume, INode) followed by Index, each 8 bytes little-endian. -/
def BlockRef.bytes (b : BlockRef) : List Nat :=
  INodeRef.bytes b.toINodeRef ++ leBytes 8 b.Index

/-- BlockRef.ToBytes from the source: serialize, then panic (modelled as
`none`) unless the buffer length equals BlockRefByteSize. -/
def BlockRef.ToBytes (b : BlockRef) : Option (List Nat) :=
  if (BlockRef.bytes b).length ≠ BlockRefByteSize then none
  else some (BlockRef.bytes b)

/-- BlockRefFromBytes from the source: `binary.Read` on a buffer holding `b`.
When fewer than 24 bytes are available the read fails and the source discards
the error, returning the zero value; otherwise the first 24 bytes are decoded.
No statement of the source can panic, so the result is always `some`. -/
def BlockRefFromBytes (b : List Nat) : Option BlockRef :=
  if b.length < BlockRefByteSize then
    some { Volume := 0, INode := 0, Index := 0 }
  else
    some { Volume := leInv (b.take 8), INode := leInv ((b.drop 8).take 8),
           Index := leInv ((b.drop 16).take 8) }

/-- BlockRef.IsINode from the source: component-wise comparison of the inode
part. -/
def BlockRef.IsINode (b : BlockRef) (i : INodeRef) : Prop :=
  b.INode = i.INode ∧ b.Volume = i.Volume

instance (b : BlockRef) (i : INodeRef) : Decidable (b.IsINode i) := by
  unfold BlockRef.IsINode; infer_instance

/-- The errors of the block-store layer (agro.ErrClosed,
agro.ErrBlockNotExist, agro.ErrOutOfSpace, the two errors.New values of the
write and delete paths, and the MFile length error). -/
inductive StoreErr where
  | closed
  | blockNotExist
  | outOfSpace
  | alreadyExisted
  | deleteNonexistent
  | wrongLength
deriving DecidableEq

/-- The in-memory index of the store, modelling the immutable radix tree
(go-immutable-radix) by its contract: a finite map from byte keys to slot
indices, as an association list.  Point get, insert and delete report whether
the key was present; iteration after SeekPrefix yields exactly the entries
whose key extends the prefix. -/
abbrev Trie := List (List Nat × Nat)

def Trie.get (t : Trie) (k : List Nat) : Option Nat :=
  (t.find? (fun p => decide (p.1 = k))).map (fun p => p.2)

/-- Txn.Insert: returns the tree with the binding added and whether the key
was already present (in which case the old binding is replaced). -/
def Trie.insert (t : Trie) (k : List Nat) (v : Nat) : Trie × Bool :=
  if (t.find? (fun p => decide (p.1 = k))).isSome then
    (t.map (fun p => if p.1 = k then (k, v) else p), true)
  else
    ((k, v) :: t, false)

/-- Txn.Delete: returns the tree with the key removed and whether it was
present. -/
def Trie.delete (t : Trie) (k : List Nat) : Trie × Bool :=
  (t.filter (fun p => decide (p.1 ≠ k)),
   (t.find? (fun p => decide (p.1 = k))).isSome)

/-- SeekPrefix followed by iteration to exhaustion: the entries whose key has
`p` as a prefix. -/
def Trie.prefixedEntries (t : Trie) (p : List Nat) : Trie :=
  t.filter (fun q => p.isPrefixOf q.1)

/-- Modelled from the spec: an MFile (storage.MFile, whose source is not in
the repository) is a file of equally sized slots with per-slot fetch and
overwrite (spec section 4.2).  A slot file is the list of its slots' byte
contents. -/
abbrev Slots := List (List Nat)

/-- Modelled from the spec: MFile.GetBlock is the per-slot fetch. -/
def mfileGet (s : Slots) (i : Nat) : List Nat := s.getD i []

/-- Modelled from the spec: MFile.WriteBlock is the per-slot overwrite; the
byte length must equal the slot size, otherwise an error is returned. -/
def mfileWrite (s : Slots) (slotSize i : Nat) (b : List Nat) :
    Except StoreErr Slots :=
  if b.length = slotSize then Except.ok (s.set i b) else
    Except.error StoreErr.wrongLength

/-- Modelled from the spec: MFile.Flush forces pages to disk; no failure is
modelled. -/
def mfileFlush (_ : Slots) : Except StoreErr Unit := Except.ok ()

/-- The 24 zero bytes marking a free map slot (`make([]byte,
agro.BlockRefByteSize)` in the source). -/
def emptyBlock : List Nat := List.replicate BlockRefByteSize 0

/-- The state of an mfileBlock store.  `blockSize` is the slot size of the
data MFile (held inside the MFile in the source); the file paths, which no
claim concerns, are omitted. -/
structure MFileBlock where
  data : Slots
  blockMap : Slots
  blockTrie : Trie
  closed : Bool
  lastFree : Nat
  size : Nat
  blockSize : Nat
deriving DecidableEq

def MFileBlock.NumBlocks (m : MFileBlock) : Nat := m.data.length

def MFileBlock.UsedBlocks (m : MFileBlock) : Nat := m.size

/-- mfileBlock.Flush from the source: flush the data MFile, then the map
MFile, propagating errors; there is no closed check. -/
def MFileBlock.Flush (m : MFileBlock) : Except StoreErr Unit :=
  match mfileFlush m.data with
  | Except.error e => Except.error e
  | Except.ok _ =>
    match mfileFlush m.blockMap with
    | Except.error e => Except.error e
    | Except.ok _ => Except.ok ()

/-- mfileBlock.Close from the source: flush, close both MFiles, set the
closed flag.  MFile close errors come from code not in the repository and are
not modelled, so the flag is always set and no error returned. -/
def MFileBlock.Close (m : MFileBlock) : MFileBlock × Option StoreErr :=
  ({ m with closed := true }, none)

/-- mfileBlock.findIndex from the source: trie lookup of the reference bytes;
the source returns -1 for a missing key, modelled as `none`.  The source
calls s.ToBytes(), whose panic guard never fires (see tobytes lemmas), so the
raw bytes are used. -/
def MFileBlock.findIndex (m : MFileBlock) (s : BlockRef) : Option Nat :=
  m.blockTrie.get s.bytes

/-- The probe loop of mfileBlock.findEmpty: `fuel` counts the remaining
iterations and `i` is the loop counter; the probe position is
(i + lastFree + 1) mod n where n is the store's NumBlocks. -/
def findEmptyLoop (bm : Slots) (n lf : Nat) : Nat → Nat → Option Nat
  | _, 0 => none
  | i, fuel + 1 =>
    if mfileGet bm ((i + lf + 1) % n) = emptyBlock then some ((i + lf + 1) % n)
    else findEmptyLoop bm n lf (i + 1) fuel

/-- mfileBlock.findEmpty from the source: rotating linear probe over the map
file for an all-zero slot, starting one past lastFree; on a hit the hint is
updated to the returned slot.  The source's -1 result is modelled as
`none`. -/
def MFileBlock.findEmpty (m : MFileBlock) : MFileBlock × Option Nat :=
  match findEmptyLoop m.blockMap m.NumBlocks m.lastFree 0 m.NumBlocks with
  | some j => ({ m with lastFree := j }, some j)
  | none => (m, none)

/-- mfileBlock.GetBlock from the source. -/
def MFileBlock.GetBlock (m : MFileBlock) (s : BlockRef) :
    Except StoreErr (List Nat) :=
  if m.closed then Except.error StoreErr.closed
  else
    match m.findIndex s with
    | none => Except.error StoreErr.blockNotExist
    | some index => Except.ok (mfileGet m.data index)

/-- mfileBlock.WriteBlock from the source.  The outer Option models a process
abort: the only potentially panicking statements are the two s.ToBytes()
calls, threaded faithfully (their guard never fires).  Error returns carry
the state as mutated so far: the source returns early without rolling back
the data and map slot writes. -/
def MFileBlock.WriteBlock (m : MFileBlock) (s : BlockRef) (data : List Nat) :
    Option (MFileBlock × Option StoreErr) :=
  if m.closed then some (m, some StoreErr.closed)
  else
    match m.findEmpty with
    | (m1, none) => some (m1, some StoreErr.outOfSpace)
    | (m1, some index) =>
      match mfileWrite m1.data m1.blockSize index data with
      | Except.error e => some (m1, some e)
      | Except.ok d =>
        match s.ToBytes with
        | none => none
        | some sb =>
          match mfileWrite m1.blockMap BlockRefByteSize index sb with
          | Except.error e => some ({ m1 with data := d }, some e)
          | Except.ok bm =>
            match s.ToBytes with
            | none => none
            | some sb2 =>
              match Trie.insert m1.blockTrie sb2 index with
              | (_, true) =>
                some ({ m1 with data := d, blockMap := bm },
                      some StoreErr.alreadyExisted)
              | (t, false) =>
                some ({ m1 with
                        data := d
                        blockMap := bm
                        size := m1.size + 1
                        blockTrie := t }, none)

/-- mfileBlock.DeleteBlock from the source: zero the map slot, then delete
the key from the trie; a missing key is ErrBlockNotExist. -/
def MFileBlock.DeleteBlock (m : MFileBlock) (s : BlockRef) :
    MFileBlock × Option StoreErr :=
  if m.closed then (m, some StoreErr.closed)
  else
    match m.findIndex s with
    | none => (m, some StoreErr.blockNotExist)
    | some index =>
      match mfileWrite m.blockMap BlockRefByteSize index emptyBlock with
      | Except.error e => (m, some e)
      | Except.ok bm =>
        match Trie.delete m.blockTrie s.bytes with
        | (_, false) => ({ m with blockMap := bm }, some StoreErr.deleteNonexistent)
        | (t, true) =>
          ({ m with blockMap := bm, size := m.size - 1, blockTrie := t }, none)

/-- Zeroing the map slots listed in `vs`, as the first loop of
DeleteINodeBlocks does.  Each write is 24 bytes, the map slot size, so the
MFile length check always passes and the write is a plain slot overwrite. -/
def zeroSlots (bm : Slots) (vs : List Nat) : Slots :=
  vs.foldl (fun acc v => acc.set v emptyBlock) bm

/-- mfileBlock.DeleteINodeBlocks from the source: collect the trie entries
under the 16-byte inode prefix, zero each collected map slot, delete each
collected key from the trie in one transaction, and decrement the counter by
the number of collected entries. -/
def MFileBlock.DeleteINodeBlocks (m : MFileBlock) (s : INodeRef) :
    MFileBlock × Option StoreErr :=
  if m.closed then (m, some StoreErr.closed)
  else
    let entries := m.blockTrie.prefixedEntries s.bytes
    let deleteList := entries.map (fun p => p.2)
    let keyList := entries.map (fun p => p.1)
    ({ m with blockMap := zeroSlots m.blockMap deleteList,
              blockTrie := keyList.foldl
                (fun acc k => (Trie.delete acc k).1) m.blockTrie,
              size := m.size - deleteList.length }, none)

/-- mfileBlock.BlockIterator from the source: the iterator is a snapshot of
the trie at creation time; iterating it yields the snapshot's entries. -/
def MFileBlock.BlockIterator (m : MFileBlock) : Trie := m.blockTrie

/-- The loop of loadTrie over the map-file slot indices: skip all-zero slots,
insert every other slot's bytes keyed to its index (the insert result is
ignored, so a duplicate key silently replaces the earlier binding) and count
it. -/
def loadTrieLoop (mslots : Slots) : List Nat → Trie × Nat → Trie × Nat
  | [], acc => acc
  | i :: rest, acc =>
    if mfileGet mslots i = emptyBlock then loadTrieLoop mslots rest acc
    else loadTrieLoop mslots rest ((Trie.insert acc.1 (mfileGet mslots i) i).1,
                                   acc.2 + 1)

/-- loadTrie from the source: scan the whole map file.  The source's error
result is always nil and is omitted. -/
def loadTrie (mslots : Slots) : Trie × Nat :=
  loadTrieLoop mslots (List.range mslots.length) ([], 0)

/-- newMFileBlockStore from the source.  Modelled from the spec for the
missing storage.CreateOrOpenMFile: the two MFiles are abstracted to their
slot contents, and their open-time I/O errors are not modelled, so the error
side of the Except never occurs here.  The outer Option models the panic when
the two slot counts differ (invariant I1). -/
def newMFileBlockStore (dslots mslots : Slots) (blockSize : Nat) :
    Option (Except StoreErr MFileBlock) :=
  let lt := loadTrie mslots
  if mslots.length ≠ dslots.length then none
  else some (Except.ok
    { data := dslots, blockMap := mslots, blockTrie := lt.1, closed := false,
      lastFree := 0, size := lt.2, blockSize := blockSize })

/-- The type of a registered block-store constructor, with the name, config
and metadata arguments abstracted to the slot contents and block size as in
newMFileBlockStore. -/
abbrev NewBlockStoreFunc := Slots → Slots → Nat → Option (Except StoreErr MFileBlock)

abbrev BlockStoreRegistry := List (String × NewBlockStoreFunc)

/-- RegisterBlockStore from the source: registering a name twice is a panic,
modelled as `none`; otherwise the binding is added to the table. -/
def RegisterBlockStore (reg : BlockStoreRegistry) (name : String)
    (f : NewBlockStoreFunc) : Option BlockStoreRegistry :=
  if (reg.find? (fun p => p.1 == name)).isSome then none
  else some (reg ++ [(name, f)])

/-- CreateBlockStore from the source: `blockStores[kind](...)` looks the kind
up and calls the result.  For an unregistered kind the map lookup yields the
zero value, a nil function, and calling it panics: modelled as the outer
`none`. -/
def CreateBlockStore (reg : BlockStoreRegistry) (kind : String)
    (dslots mslots : Slots) (blockSize : Nat) :
    Option (Option (Except StoreErr MFileBlock)) :=
  match (reg.find? (fun p => p.1 == kind)).map (fun p => p.2) with
  | none => none
  | some f => some (f dslots mslots blockSize)

/-- Invariant I4: the used-block counter equals the number of nonzero slots
in the map file. -/
abbrev invI4 (m : MFileBlock) : Prop :=
  m.size = (m.blockMap.filter (fun b => decide (b ≠ emptyBlock))).length

/-- Invariant I5: no two map-file slots hold the same nonzero key. -/
abbrev invI5 (m : MFileBlock) : Prop :=
  ∀ i, i < m.blockMap.length → ∀ j, j < m.blockMap.length → i ≠ j →
    mfileGet m.blockMap i ≠ emptyBlock →
    mfileGet m.blockMap i ≠ mfileGet m.blockMap j

deriving instance DecidableEq for Except

instance invI5Dec (m : MFileBlock) : Decidable (invI5 m) :=
  decidable_of_iff (∀ i ∈ List.range m.blockMap.length,
    ∀ j ∈ List.range m.blockMap.length, i ≠ j →
      mfileGet m.blockMap i ≠ emptyBlock →
      mfileGet m.blockMap i ≠ mfileGet m.blockMap j)
    (by simp [List.mem_range])

/-- Concrete references for the evaluations below. -/
def refA : BlockRef := { Volume := 1, INode := 1, Index := 0 }

def refB : BlockRef := { Volume := 1, INode := 1, Index := 1 }

def refC : BlockRef := { Volume := 1, INode := 2, Index := 0 }

def irefA : INodeRef := { Volume := 1, INode := 1 }

def irefB : INodeRef := { Volume := 9, INode := 9 }

/-- A two-slot store with block size 1 holding refA at slot 0, slot 1
free. -/
def storeA : MFileBlock :=
  { data := [[65], [0]]
    blockMap := [BlockRef.bytes refA, emptyBlock]
    blockTrie := [(BlockRef.bytes refA, 0)]
    closed := false
    lastFree := 0
    size := 1
    blockSize := 1 }

/-- The state the failed duplicate write of refA leaves storeA in: the probe
found slot 1, the payload and the key were written there, and then the
insert reported the key already present — both map slots now hold refA's
key while the counter still says 1. -/
def storeADup : MFileBlock :=
  { data := [[65], [9]]
    blockMap := [BlockRef.bytes refA, BlockRef.bytes refA]
    blockTrie := [(BlockRef.bytes refA, 0)]
    closed := false
    lastFree := 1
    size := 1
    blockSize := 1 }

/-- The state a successful write of refB leaves storeA in. -/
def storeAB : MFileBlock :=
  { data := [[65], [7]]
    blockMap := [BlockRef.bytes refA, BlockRef.bytes refB]
    blockTrie := [(BlockRef.bytes refB, 1), (BlockRef.bytes refA, 0)]
    closed := false
    lastFree := 1
    size := 2
    blockSize := 1 }

/-- A two-slot store holding refA and refC, which belong to different
inodes. -/
def storeB : MFileBlock :=
  { data := [[65], [66]]
    blockMap := [BlockRef.bytes refA, BlockRef.bytes refC]
    blockTrie := [(BlockRef.bytes refA, 0), (BlockRef.bytes refC, 1)]
    closed := false
    lastFree := 0
    size := 2
    blockSize := 1 }

/-- A map file whose two slots hold the same nonzero key. -/
def dupSlots : Slots := [BlockRef.bytes refA, BlockRef.bytes refA]

/-- A matching two-slot data file. -/
def dupData : Slots := [[0], [0]]

/-- The store opening dupData/dupSlots produces: the later duplicate slot
wins in the trie and the counter counts both nonzero slots. -/
def dupStore : MFileBlock :=
  { data := dupData
    blockMap := dupSlots
    blockTrie := [(BlockRef.bytes refA, 1)]
    closed := false
    lastFree := 0
    size := 2
    blockSize := 1 }

/-- The registry after the package init registers the mfile backend. -/
def regMfile : BlockStoreRegistry := [("mfile", newMFileBlockStore)]

theorem leBytes_length (n v : Nat) : (leBytes n v).length = n := by
  induction n generalizing v with
  | zero => rfl
  | succ n ih => simp [leBytes, ih]

theorem leInv_leBytes (n v : Nat) : leInv (leBytes n v) = v % 256 ^ n := by
  induction n generalizing v with
  | zero => simp [leBytes, leInv, Nat.mod_one]
  | succ n ih =>
    rw [leBytes, leInv, ih, pow_succ, mul_comm (256 ^ n) 256, Nat.mod_mul]

theorem leBytes_inj {n v w : Nat} (hv : v < 256 ^ n) (hw : w < 256 ^ n)
    (h : leBytes n v = leBytes n w) : v = w := by
  have h2 := congrArg leInv h
  rwa [leInv_leBytes, leInv_leBytes, Nat.mod_eq_of_lt hv,
    Nat.mod_eq_of_lt hw] at h2

theorem inode_bytes_length (i : INodeRef) :
    (INodeRef.bytes i).length = INodeRefByteSize := by
  simp [INodeRef.bytes, leBytes_length, INodeRefByteSize]

theorem block_bytes_length (b : BlockRef) :
    (BlockRef.bytes b).length = BlockRefByteSize := by
  simp [BlockRef.bytes, INodeRef.bytes, leBytes_length, BlockRefByteSize]

/-- The panic guard of INodeRef.ToBytes never fires: the encoding always has
exactly 16 bytes. -/
theorem inode_tobytes_eq (i : INodeRef) :
    INodeRef.ToBytes i = some (INodeRef.bytes i) := by
  simp [INodeRef.ToBytes, inode_bytes_length]

/-- The panic guard of BlockRef.ToBytes never fires: the encoding always has
exactly 24 bytes. -/
theorem block_tobytes_eq (b : BlockRef) :
    BlockRef.ToBytes b = some (BlockRef.bytes b) := by
  simp [BlockRef.ToBytes, block_bytes_length]

theorem INodeRef.bytes_inj {i j : INodeRef} (hi : i.WF) (hj : j.WF)
    (h : INodeRef.bytes i = INodeRef.bytes j) : i = j := by
  have hlen : (leBytes 8 i.Volume).length = (leBytes 8 j.Volume).length := by
    rw [leBytes_length, leBytes_length]
  have h2 := List.append_inj h hlen
  cases i; cases j
  have hv := leBytes_inj hi.1 hj.1 h2.1
  have hn := leBytes_inj hi.2 hj.2 h2.2
  simp_all

/-- isPrefixOf agrees with take-equality; proved directly to keep the
development self-contained. -/
theorem isPrefixOf_iff_take (l1 l2 : List Nat) :
    l1.isPrefixOf l2 = true ↔ l2.take l1.length = l1 := by
  induction l1 generalizing l2 with
  | nil => simp [List.isPrefixOf]
  | cons a as ih =>
    cases l2 with
    | nil => simp [List.isPrefixOf]
    | cons b bs =>
      simp only [List.isPrefixOf, List.length_cons, List.take_succ_cons,
        Bool.and_eq_true, beq_iff_eq, List.cons.injEq, ih]
      constructor
      · rintro ⟨h1, h2⟩; exact ⟨h1.symm, h2⟩
      · rintro ⟨h1, h2⟩; exact ⟨h1.symm, h2⟩

/-- The load-bearing prefix property (spec section 3): for in-range field
values, the inode encoding is a prefix of a block encoding exactly when the
volume and inode components agree. -/
theorem bytes_prefix_iff {s : INodeRef} {b : BlockRef} (hs : s.WF)
    (hb : b.WF) :
    (INodeRef.bytes s).isPrefixOf (BlockRef.bytes b) = true ↔ b.IsINode s := by
  rw [isPrefixOf_iff_take, BlockRef.bytes, inode_bytes_length]
  have htake : (INodeRef.bytes b.toINodeRef ++ leBytes 8 b.Index).take
      INodeRefByteSize = INodeRef.bytes b.toINodeRef := by
    rw [show INodeRefByteSize = (INodeRef.bytes b.toINodeRef).length from
      (inode_bytes_length _).symm]
    exact List.take_left _ _
  rw [htake]
  constructor
  · intro h
    have := INodeRef.bytes_inj ⟨hb.1, hb.2.1⟩ hs h
    refine ⟨?_, ?_⟩
    · exact congrArg INodeRef.INode this
    · exact congrArg INodeRef.Volume this
  · intro h
    have : b.toINodeRef = s := by
      cases s; cases b with | mk ir ix => cases ir; simp_all [BlockRef.IsINode]
    rw [this]

/-- Decode is a left inverse of encode on well-formed references. -/
theorem fromBytes_bytes {b : BlockRef} (hb : b.WF) :
    BlockRefFromBytes (BlockRef.bytes b) = some b := by
  have hlen := block_bytes_length b
  rw [BlockRefFromBytes, if_neg (by omega)]
  have h8 : (BlockRef.bytes b).take 8 = leBytes 8 b.Volume := by
    rw [BlockRef.bytes, INodeRef.bytes, List.append_assoc]
    exact List.take_left' (leBytes_length 8 b.Volume)
  have h16 : ((BlockRef.bytes b).drop 8).take 8 = leBytes 8 b.INode := by
    rw [BlockRef.bytes, INodeRef.bytes, List.append_assoc,
      List.drop_left' (leBytes_length 8 b.Volume)]
    exact List.take_left' (leBytes_length 8 b.INode)
  have h24 : ((BlockRef.bytes b).drop 16).take 8 = leBytes 8 b.Index := by
    rw [BlockRef.bytes,
      List.drop_left' (by simp [inode_bytes_length, INodeRefByteSize] :
        (INodeRef.bytes b.toINodeRef).length = 16)]
    exact List.take_left' (leBytes_length 8 b.Index)
  rw [h8, h16, h24, leInv_leBytes, leInv_leBytes, leInv_leBytes,
    Nat.mod_eq_of_lt hb.1, Nat.mod_eq_of_lt hb.2.1, Nat.mod_eq_of_lt hb.2.2]

theorem getD_set_self {α : Type} (l : List α) (j : Nat) (a d : α)
    (h : j < l.length) : (l.set j a).getD j d = a := by
  induction l generalizing j with
  | nil => simp at h
  | cons x xs ih =>
    cases j with
    | zero => rfl
    | succ j => exact ih j (by simpa using h)

theorem getD_set_ne {α : Type} (l : List α) (i j : Nat) (a d : α)
    (h : i ≠ j) : (l.set j a).getD i d = l.getD i d := by
  induction l generalizing i j with
  | nil => simp [List.set]
  | cons x xs ih =>
    cases j with
    | zero => cases i with
      | zero => exact absurd rfl h
      | succ i => rfl
    | succ j => cases i with
      | zero => rfl
      | succ i => exact ih i j (by omega)

theorem findEmptyLoop_some {bm : Slots} {n lf j : Nat} :
    ∀ fuel i, findEmptyLoop bm n lf i fuel = some j →
    ∃ d, d < fuel ∧ j = (i + d + lf + 1) % n ∧ mfileGet bm j = emptyBlock ∧
      ∀ d', d' < d → mfileGet bm ((i + d' + lf + 1) % n) ≠ emptyBlock := by
  intro fuel
  induction fuel with
  | zero => intro i h; exact absurd h (by simp [findEmptyLoop])
  | succ fuel ih =>
    intro i h
    rw [findEmptyLoop] at h
    by_cases hhit : mfileGet bm ((i + lf + 1) % n) = emptyBlock
    · rw [if_pos hhit] at h
      refine ⟨0, by omega, ?_, ?_, ?_⟩
      · simpa using (Option.some.inj h).symm
      · rw [← Option.some.inj h]; exact hhit
      · intro d' hd'; omega
    · rw [if_neg hhit] at h
      obtain ⟨d, hd, hj, hempty, hmin⟩ := ih (i + 1) h
      refine ⟨d + 1, by omega, by rw [hj]; ring_nf, hempty, ?_⟩
      intro d' hd'
      cases d' with
      | zero => simpa using hhit
      | succ d'' =>
        have := hmin d'' (by omega)
        have harr : i + 1 + d'' = i + (d'' + 1) := by ring
        rwa [harr] at this

theorem findEmptyLoop_none {bm : Slots} {n lf : Nat} :
    ∀ fuel i, findEmptyLoop bm n lf i fuel = none ↔
      ∀ d, d < fuel → mfileGet bm ((i + d + lf + 1) % n) ≠ emptyBlock := by
  intro fuel
  induction fuel with
  | zero => intro i; simp [findEmptyLoop]
  | succ fuel ih =>
    intro i
    rw [findEmptyLoop]
    by_cases hhit : mfileGet bm ((i + lf + 1) % n) = emptyBlock
    · rw [if_pos hhit]
      constructor
      · intro h; simp at h
      · intro h
        have h0 := h 0 (by omega)
        rw [Nat.add_zero] at h0
        exact absurd hhit h0
    · rw [if_neg hhit, ih]
      constructor
      · intro h d hd
        cases d with
        | zero => simpa using hhit
        | succ d' =>
          have := h d' (by omega)
          have harr : i + 1 + d' = i + (d' + 1) := by ring
          rwa [harr] at this
      · intro h d hd
        have := h (d + 1) (by omega)
        have harr : i + (d + 1) = i + 1 + d := by ring
        rwa [harr] at this

/-- Structure of a successful findEmpty: the hint is updated to the returned
slot, which is in range and empty. -/
theorem findEmpty_eq_some {m m1 : MFileBlock} {j : Nat}
    (h : m.findEmpty = (m1, some j)) :
    m1 = { m with lastFree := j } ∧ j < m.NumBlocks ∧
      mfileGet m.blockMap j = emptyBlock := by
  rw [MFileBlock.findEmpty] at h
  cases hl : findEmptyLoop m.blockMap m.NumBlocks m.lastFree 0 m.NumBlocks with
  | none => rw [hl] at h; simp at h
  | some j' =>
    rw [hl] at h
    obtain ⟨h1, h2⟩ := Prod.mk.injEq .. ▸ h
    obtain ⟨d, hd, hj, hempty, _⟩ := findEmptyLoop_some _ _ hl
    have hj' : j' = j := Option.some.inj h2
    subst hj'
    refine ⟨h1.symm, ?_, hempty⟩
    rw [hj]
    exact Nat.mod_lt _ (by omega)

theorem findEmpty_eq_none {m m1 : MFileBlock}
    (h : m.findEmpty = (m1, none)) : m1 = m := by
  rw [MFileBlock.findEmpty] at h
  cases hl : findEmptyLoop m.blockMap m.NumBlocks m.lastFree 0 m.NumBlocks with
  | none => rw [hl] at h; exact (Prod.mk.inj h).1.symm
  | some j' =>
    rw [hl] at h
    have h2 := congrArg Prod.snd h
    simp at h2

theorem get_cons_self (t : Trie) (k : List Nat) (v : Nat) :
    Trie.get ((k, v) :: t) k = some v := by
  rw [Trie.get, List.find?_cons_of_pos _ (by simp)]
  rfl

/-- Entries surviving a transaction that deletes every key in ks. -/
theorem mem_foldl_delete {ks : List (List Nat)} :
    ∀ (t : Trie) (p : List Nat × Nat),
      p ∈ ks.foldl (fun acc k => (Trie.delete acc k).1) t ↔
        p ∈ t ∧ p.1 ∉ ks := by
  induction ks with
  | nil => intro t p; simp
  | cons k rest ih =>
    intro t p
    rw [List.foldl_cons, ih]
    simp only [Trie.delete, List.mem_filter, decide_eq_true_eq,
      List.mem_cons]
    constructor
    · rintro ⟨⟨hp, hk⟩, hrest⟩
      exact ⟨hp, by rintro (h | h); exact hk h; exact hrest h⟩
    · rintro ⟨hp, hnot⟩
      exact ⟨⟨hp, fun h => hnot (Or.inl h)⟩, fun h => hnot (Or.inr h)⟩

theorem get_filter (t : Trie) (q : List Nat × Nat → Bool) (k : List Nat)
    (hq : ∀ p ∈ t, p.1 = k → q p = true) :
    Trie.get (t.filter q) k = Trie.get t k := by
  induction t with
  | nil => rfl
  | cons p0 rest ih =>
    have ih' := ih (fun p hp => hq p (List.mem_cons_of_mem _ hp))
    simp only [Trie.get] at ih' ⊢
    by_cases hq0 : q p0 = true
    · rw [List.filter_cons_of_pos hq0]
      by_cases hk : p0.1 = k
      · rw [List.find?_cons_of_pos _ (by simp [hk]),
          List.find?_cons_of_pos _ (by simp [hk])]
      · rw [List.find?_cons_of_neg _ (by simp [hk]),
          List.find?_cons_of_neg _ (by simp [hk])]
        exact ih'
    · have hk : p0.1 ≠ k := fun h => hq0 (hq p0 (List.mem_cons_self _ _) h)
      rw [List.filter_cons_of_neg hq0, List.find?_cons_of_neg _ (by simp [hk])]
      exact ih'

theorem get_foldl_delete_of_not_mem {ks : List (List Nat)} :
    ∀ (t : Trie) (k : List Nat), k ∉ ks →
      Trie.get (ks.foldl (fun acc k' => (Trie.delete acc k').1) t) k =
        Trie.get t k := by
  induction ks with
  | nil => intro t k _; rfl
  | cons k0 rest ih =>
    intro t k hk
    rw [List.foldl_cons, ih _ k (fun h => hk (List.mem_cons_of_mem _ h))]
    exact get_filter t _ k (fun p _ hp => by
      simp only [decide_eq_true_eq]
      intro he
      exact hk (he ▸ hp ▸ List.mem_cons_self _ _))

theorem zeroSlots_length (vs : List Nat) : ∀ bm : Slots,
    (zeroSlots bm vs).length = bm.length := by
  induction vs with
  | nil => intro bm; rfl
  | cons v rest ih =>
    intro bm
    rw [zeroSlots, List.foldl_cons, ← zeroSlots, ih, List.length_set]

theorem zeroSlots_getD_not_mem {vs : List Nat} {i : Nat} (h : i ∉ vs) :
    ∀ bm : Slots, mfileGet (zeroSlots bm vs) i = mfileGet bm i := by
  induction vs with
  | nil => intro bm; rfl
  | cons v rest ih =>
    intro bm
    rw [zeroSlots, List.foldl_cons, ← zeroSlots,
      ih (fun hm => h (List.mem_cons_of_mem _ hm))]
    exact getD_set_ne bm i v emptyBlock [] (fun he => h (he ▸ List.mem_cons_self _ _))

theorem zeroSlots_getD_mem {vs : List Nat} {i : Nat} (h : i ∈ vs) :
    ∀ bm : Slots, i < bm.length → mfileGet (zeroSlots bm vs) i = emptyBlock := by
  induction vs with
  | nil => exact absurd h (List.not_mem_nil i)
  | cons v rest ih =>
    intro bm hlt
    rw [zeroSlots, List.foldl_cons, ← zeroSlots]
    by_cases hm : i ∈ rest
    · exact ih hm _ (by rw [List.length_set]; exact hlt)
    · have hv : i = v := by
        rcases List.mem_cons.mp h with h' | h'
        · exact h'
        · exact absurd h' hm
      rw [zeroSlots_getD_not_mem hm, hv]
      exact getD_set_self bm v emptyBlock [] (hv ▸ hlt)

theorem loadTrieLoop_snd (mslots : Slots) :
    ∀ (l : List Nat) (acc : Trie × Nat),
      (loadTrieLoop mslots l acc).2 =
        acc.2 + (l.filter
          (fun i => decide (mfileGet mslots i ≠ emptyBlock))).length := by
  intro l
  induction l with
  | nil => intro acc; simp [loadTrieLoop]
  | cons i rest ih =>
    intro acc
    rw [loadTrieLoop]
    by_cases hi : mfileGet mslots i = emptyBlock
    · rw [if_pos hi, ih, List.filter_cons, if_neg (by simp [hi])]
    · rw [if_neg hi, ih, List.filter_cons, if_pos (by simp [hi])]
      simp only [List.length_cons]
      omega

theorem count_slots (l : Slots) :
    ((List.range l.length).filter
      (fun i => decide (mfileGet l i ≠ emptyBlock))).length =
    (l.filter (fun b => decide (b ≠ emptyBlock))).length := by
  induction l with
  | nil => rfl
  | cons a rest ih =>
    have hmap : ((List.range rest.length).map Nat.succ).filter
        (fun i => decide (mfileGet (a :: rest) i ≠ emptyBlock)) =
        ((List.range rest.length).filter
          (fun i => decide (mfileGet rest i ≠ emptyBlock))).map Nat.succ := by
      rw [List.filter_map]
      have hcong : List.filter
          ((fun i => decide (mfileGet (a :: rest) i ≠ emptyBlock)) ∘ Nat.succ)
          (List.range rest.length) =
          List.filter (fun i => decide (mfileGet rest i ≠ emptyBlock))
          (List.range rest.length) := List.filter_congr (fun i _ => rfl)
      rw [hcong]
    rw [List.length_cons, List.range_succ_eq_map, List.filter_cons, hmap]
    by_cases ha : a = emptyBlock
    · rw [if_neg (by simp [mfileGet, ha]), List.filter_cons,
        if_neg (by simp [ha]), List.length_map, ih]
    · rw [if_pos (by simp [mfileGet, ha]), List.filter_cons,
        if_pos (by simp [ha])]
      simp only [List.length_cons, List.length_map]
      omega

/-- The counter loadTrie returns counts every nonzero slot of the map file,
duplicates included. -/
theorem loadTrie_snd (mslots : Slots) :
    (loadTrie mslots).2 =
      (mslots.filter (fun b => decide (b ≠ emptyBlock))).length := by
  rw [loadTrie, loadTrieLoop_snd, count_slots]
  exact Nat.zero_add _

/-- Inversion of a fully successful WriteBlock: the store was open, the probe
found a free in-range slot, the payload had the block size, the key was new,
and the result state is the sequential update the source performs. -/
theorem writeBlock_ok_inv {m m' : MFileBlock} {s : BlockRef}
    {data : List Nat} (hw : m.WriteBlock s data = some (m', none)) :
    m.closed = false ∧ ∃ index,
      m.findEmpty = ({ m with lastFree := index }, some index) ∧
      index < m.data.length ∧ data.length = m.blockSize ∧
      (m.blockTrie.find? (fun p => decide (p.1 = BlockRef.bytes s))).isSome
        = false ∧
      m' = { m with
             lastFree := index
             data := m.data.set index data
             blockMap := m.blockMap.set index (BlockRef.bytes s)
             blockTrie := (BlockRef.bytes s, index) :: m.blockTrie
             size := m.size + 1 } := by
  rw [MFileBlock.WriteBlock] at hw
  split at hw
  next hc =>
    exact absurd (congrArg Prod.snd (Option.some.inj hw)) (by simp)
  next hc =>
    split at hw
    next m1 heq =>
      exact absurd (congrArg Prod.snd (Option.some.inj hw)) (by simp)
    next m1 index heq =>
      obtain ⟨hm1, hlt, hemp⟩ := findEmpty_eq_some heq
      subst hm1
      split at hw
      next e heq2 =>
        exact absurd (congrArg Prod.snd (Option.some.inj hw)) (by simp)
      next d heq2 =>
        rw [mfileWrite] at heq2
        by_cases hlen : data.length = m.blockSize
        case neg =>
          rw [if_neg hlen] at heq2
          exact Except.noConfusion heq2
        case pos =>
          rw [if_pos hlen] at heq2
          have hd : d = m.data.set index data := (Except.ok.inj heq2).symm
          split at hw
          next heq3 =>
            rw [block_tobytes_eq] at heq3
            exact Option.noConfusion heq3
          next sb heq3 =>
            rw [block_tobytes_eq] at heq3
            have hsb : sb = BlockRef.bytes s := (Option.some.inj heq3).symm
            subst hsb
            split at hw
            next e heq4 =>
              rw [mfileWrite, if_pos (block_bytes_length s)] at heq4
              exact Except.noConfusion heq4
            next bm heq4 =>
              rw [mfileWrite, if_pos (block_bytes_length s)] at heq4
              have hbm : bm = m.blockMap.set index (BlockRef.bytes s) :=
                (Except.ok.inj heq4).symm
              split at hw
              next heq5 =>
                exact Option.noConfusion heq5
              next sb2 heq5 =>
                have hsb2 : sb2 = BlockRef.bytes s := (Option.some.inj heq5).symm
                subst hsb2
                split at hw
                next u heq6 =>
                  exact absurd (congrArg Prod.snd (Option.some.inj hw)) (by simp)
                next t heq6 =>
                  rw [Trie.insert] at heq6
                  by_cases hins : (m.blockTrie.find?
                      (fun p => decide (p.1 = BlockRef.bytes s))).isSome = true
                  case pos =>
                    rw [if_pos hins] at heq6
                    exact absurd (congrArg Prod.snd heq6) (by simp)
                  case neg =>
                    rw [if_neg hins] at heq6
                    have ht : t = (BlockRef.bytes s, index) :: m.blockTrie :=
                      (congrArg Prod.fst heq6).symm
                    refine ⟨Bool.eq_false_iff.mpr hc, index, heq, hlt, hlen,
                      Bool.eq_false_iff.mpr hins, ?_⟩
                    have hp := (Prod.mk.inj (Option.some.inj hw)).1
                    rw [← hp, hd, hbm, ht]

/-- C1: for every block reference ref and payload data of block-size length,
if write(ref, data) succeeds on an open, non-full store that does not
already contain ref, then an immediately following get(ref) succeeds and
returns bytes equal to data.  (Write success subsumes the side conditions:
a closed store, a full store, a wrong-length payload, or an already-present
key each make WriteBlock return an error instead.) -/
theorem write_then_get (m m' : MFileBlock) (s : BlockRef) (data : List Nat)
    (hw : m.WriteBlock s data = some (m', none)) :
    m'.GetBlock s = Except.ok data := by
  obtain ⟨hc, index, hfe, hlt, hlen, hins, hm'⟩ := writeBlock_ok_inv hw
  subst hm'
  rw [MFileBlock.GetBlock, if_neg (by simp [hc])]
  have hidx : MFileBlock.findIndex
      { m with
        lastFree := index
        data := m.data.set index data
        blockMap := m.blockMap.set index (BlockRef.bytes s)
        blockTrie := (BlockRef.bytes s, index) :: m.blockTrie
        size := m.size + 1 } s = some index :=
    get_cons_self m.blockTrie (BlockRef.bytes s) index
  rw [hidx]
  exact congrArg Except.ok (getD_set_self m.data index data [] hlt)

/-- C1 witness: writing refB into storeA succeeds producing storeAB, and
getting refB from storeAB returns the written byte. -/
theorem write_then_get_witness : storeAB.GetBlock refB = Except.ok [7] :=
  write_then_get storeA storeAB refB [7] (by decide)

/-- C2: the concrete store storeA satisfies I4 and I5; writing its stored
reference refA again returns the already-existed error but leaves the
duplicate key written in the probed free slot, so the resulting state
storeADup violates both I4 (counter 1, two nonzero slots) and I5 (slots 0
and 1 hold the same nonzero key). -/
theorem dup_write_breaks_invariants :
    invI4 storeA ∧ invI5 storeA ∧
    storeA.WriteBlock refA [9] =
      some (storeADup, some StoreErr.alreadyExisted) ∧
    ¬ invI4 storeADup ∧ ¬ invI5 storeADup := by decide

/-- C3 counterexample: the duplicate-on-insert during the write path does
not abort the process (the result is not the abort value none); it returns
the ordinary already-existed error to the caller. -/
theorem write_dup_not_fatal :
    storeA.WriteBlock refA [9] =
      some (storeADup, some StoreErr.alreadyExisted) ∧
    storeA.WriteBlock refA [9] ≠ none := by decide

/-- The write path when the probe found a free slot but the trie insert
reports the key as already present: the payload and key writes stay in
place and the already-existed error is returned. -/
theorem writeBlock_dup {m : MFileBlock} {s : BlockRef} {data : List Nat}
    {index : Nat} (hc : m.closed = false)
    (hfe : m.findEmpty = ({ m with lastFree := index }, some index))
    (hlen : data.length = m.blockSize)
    (hdup : (m.blockTrie.find?
      (fun p => decide (p.1 = BlockRef.bytes s))).isSome = true) :
    m.WriteBlock s data =
      some ({ m with
              lastFree := index
              data := m.data.set index data
              blockMap := m.blockMap.set index (BlockRef.bytes s) },
            some StoreErr.alreadyExisted) := by
  rw [MFileBlock.WriteBlock, if_neg (by simp [hc]), hfe]
  dsimp only
  rw [mfileWrite, if_pos hlen]
  dsimp only
  rw [block_tobytes_eq]
  dsimp only
  rw [mfileWrite, if_pos (block_bytes_length s)]
  dsimp only
  rw [Trie.insert, if_pos hdup]

/-- C3 amended: when the trie insert during write(ref, data) reports that
the key already existed, WriteBlock returns the ordinary already-existed
error to the caller — the process does not abort — and the payload and key
already written to the probed slot are left in place. -/
theorem write_dup_returns_error (m : MFileBlock) (s : BlockRef)
    (data : List Nat) (hc : m.closed = false)
    (hfree : (m.findEmpty).2.isSome = true)
    (hlen : data.length = m.blockSize)
    (hdup : (Trie.get m.blockTrie (BlockRef.bytes s)).isSome = true) :
    ∃ index, m.WriteBlock s data =
      some ({ m with
              lastFree := index
              data := m.data.set index data
              blockMap := m.blockMap.set index (BlockRef.bytes s) },
            some StoreErr.alreadyExisted) := by
  rcases hfe2 : m.findEmpty with ⟨m1, oi⟩
  cases oi with
  | none => rw [hfe2] at hfree; simp at hfree
  | some index =>
    obtain ⟨hm1, hlt2, hemp2⟩ := findEmpty_eq_some hfe2
    subst hm1
    refine ⟨index, writeBlock_dup hc hfe2 hlen ?_⟩
    rw [Trie.get] at hdup
    cases hfq : m.blockTrie.find? (fun p => decide (p.1 = BlockRef.bytes s)) with
    | none => rw [hfq] at hdup; simp at hdup
    | some q => rfl

/-- C3 amended witness: the duplicate write of refA into storeA returns an
ordinary value, not the abort. -/
theorem write_dup_returns_error_witness :
    storeA.WriteBlock refA [9] ≠ none := by
  obtain ⟨index, h⟩ := write_dup_returns_error storeA refA [9]
    (by decide) (by decide) (by decide) (by decide)
  rw [h]
  exact fun hx => Option.noConfusion hx

/-- C4 counterexample: opening a store over a map file whose two slots hold
the same nonzero key does not fail: it returns a usable store, whose trie
maps the duplicated key to the later slot only (so slot 0 violates I2) and
which violates I5. -/
theorem open_dup_counterexample :
    newMFileBlockStore dupData dupSlots 1 = some (Except.ok dupStore) ∧
    mfileGet dupStore.blockMap 0 = BlockRef.bytes refA ∧
    Trie.get dupStore.blockTrie (BlockRef.bytes refA) = some 1 ∧
    ¬ invI5 dupStore := by decide

/-- C4 amended: opening a store scans the map file but performs no duplicate
detection: whenever the data and map files agree on slot count, opening
succeeds — duplicate nonzero keys included, the later slot overwriting the
earlier trie binding — and the used counter counts every nonzero map slot,
so the rebuilt store may violate I2 and I5. -/
theorem open_succeeds_amended (dslots mslots : Slots) (blockSize : Nat)
    (hlen : mslots.length = dslots.length) :
    newMFileBlockStore dslots mslots blockSize = some (Except.ok
      { data := dslots
        blockMap := mslots
        blockTrie := (loadTrie mslots).1
        closed := false
        lastFree := 0
        size := (loadTrie mslots).2
        blockSize := blockSize }) ∧
    (loadTrie mslots).2 =
      (mslots.filter (fun b => decide (b ≠ emptyBlock))).length := by
  constructor
  · rw [newMFileBlockStore, if_neg (by omega)]
  · exact loadTrie_snd mslots

/-- C4 amended witness: opening the duplicated map file returns a store. -/
theorem open_succeeds_amended_witness :
    (newMFileBlockStore dupData dupSlots 1).isSome = true := by
  rw [(open_succeeds_amended dupData dupSlots 1 (by decide)).1]
  rfl

/-- C5 amended: after close succeeds, get, write, delete and
delete-all-for-inode all fail with the closed error; but num-blocks,
used-blocks, flush and iterator creation perform no closed check — they
return the slot count, the counter, the MFile flush results and a snapshot
of the trie as on the open store. -/
theorem close_then_ops (m : MFileBlock) (s : BlockRef) (data : List Nat)
    (ir : INodeRef) :
    (m.Close).2 = none ∧
    ((m.Close).1).GetBlock s = Except.error StoreErr.closed ∧
    ((m.Close).1).WriteBlock s data =
      some ((m.Close).1, some StoreErr.closed) ∧
    ((m.Close).1).DeleteBlock s = ((m.Close).1, some StoreErr.closed) ∧
    ((m.Close).1).DeleteINodeBlocks ir = ((m.Close).1, some StoreErr.closed) ∧
    ((m.Close).1).NumBlocks = m.NumBlocks ∧
    ((m.Close).1).UsedBlocks = m.UsedBlocks ∧
    ((m.Close).1).Flush = Except.ok () ∧
    ((m.Close).1).BlockIterator = m.blockTrie :=
  ⟨rfl, rfl, rfl, rfl, rfl, rfl, rfl, rfl, rfl⟩

/-- C5 counterexample: on the concrete closed store, used-blocks, num-blocks,
flush and iterator creation do not fail with the closed error: they return
their ordinary results. -/
theorem closed_ops_counterexample :
    ((storeA.Close).1).UsedBlocks = 1 ∧
    ((storeA.Close).1).NumBlocks = 2 ∧
    ((storeA.Close).1).Flush = Except.ok () ∧
    ((storeA.Close).1).BlockIterator = [(BlockRef.bytes refA, 0)] :=
  ⟨rfl, rfl, rfl, rfl⟩

/-- The rotating probe hits every slot: for every target k below N some probe
index d below N reaches it. -/
theorem probe_surjective (N lf k : Nat) (hN : 0 < N) (hk : k < N) :
    ∃ d, d < N ∧ (d + lf + 1) % N = k := by
  have hr : (lf + 1) % N < N := Nat.mod_lt _ hN
  have hq := Nat.div_add_mod (lf + 1) N
  set w := N * ((lf + 1) / N) with hw
  set r := (lf + 1) % N with hrdef
  refine ⟨(k + (N - r)) % N, Nat.mod_lt _ hN, ?_⟩
  have key : k + (N - r) + (lf + 1) = k + N + w := by omega
  calc ((k + (N - r)) % N + lf + 1) % N
      = ((k + (N - r)) % N + (lf + 1)) % N := by rw [Nat.add_assoc]
    _ = (k + (N - r) + (lf + 1)) % N := Nat.mod_add_mod _ _ _
    _ = (k + N + w) % N := by rw [key]
    _ = (k + N) % N := by
        rw [hw]
        exact Nat.add_mul_mod_self_left (k + N) N ((lf + 1) / N)
    _ = k % N := Nat.add_mod_right k N
    _ = k := Nat.mod_eq_of_lt hk

/-- C6: for every map-file state and hint, the allocator probes slots
starting one past the hint, wrapping modulo N, returns the first all-zero
slot in probe order (updating the hint to it), and returns none exactly when
no slot of the map file is all-zero (in which case the state is
unchanged). -/
theorem findEmpty_characterization (m : MFileBlock)
    (hlen : m.blockMap.length = m.data.length) :
    (∀ j, (m.findEmpty).2 = some j →
      (m.findEmpty).1 = { m with lastFree := j } ∧
      ∃ i, i < m.NumBlocks ∧ j = (i + m.lastFree + 1) % m.NumBlocks ∧
        mfileGet m.blockMap j = emptyBlock ∧
        ∀ i', i' < i →
          mfileGet m.blockMap ((i' + m.lastFree + 1) % m.NumBlocks) ≠
            emptyBlock) ∧
    ((m.findEmpty).2 = none ↔
      ∀ k, k < m.blockMap.length → mfileGet m.blockMap k ≠ emptyBlock) ∧
    ((m.findEmpty).2 = none → (m.findEmpty).1 = m) := by
  have hN : m.NumBlocks = m.data.length := rfl
  rcases hl : findEmptyLoop m.blockMap m.NumBlocks m.lastFree 0 m.NumBlocks
    with _ | j0
  case none =>
    have hfe : m.findEmpty = (m, none) := by rw [MFileBlock.findEmpty, hl]
    rw [findEmptyLoop_none] at hl
    refine ⟨?_, ?_, ?_⟩
    · intro j hj
      rw [hfe] at hj
      simp at hj
    · rw [hfe]
      constructor
      · intro _ k hk
        have hkN : k < m.NumBlocks := by omega
        have hNpos : 0 < m.NumBlocks := by omega
        obtain ⟨d, hd, hdk⟩ := probe_surjective m.NumBlocks m.lastFree k
          hNpos hkN
        have h2 := hl d hd
        rwa [show 0 + d + m.lastFree + 1 = d + m.lastFree + 1 by omega, hdk]
          at h2
      · intro _
        rfl
    · intro _
      rw [hfe]
  case some =>
    have hfe : m.findEmpty = ({ m with lastFree := j0 }, some j0) := by
      rw [MFileBlock.findEmpty, hl]
    obtain ⟨d0, hd0, hj0eq, hemp0, hmin0⟩ := findEmptyLoop_some _ _ hl
    have hj0lt : j0 < m.NumBlocks := by
      rw [hj0eq]
      exact Nat.mod_lt _ (by omega)
    refine ⟨?_, ?_, ?_⟩
    · intro j hj
      rw [hfe] at hj
      have hjj : j0 = j := by simpa using hj
      subst hjj
      refine ⟨by rw [hfe], d0, hd0, ?_, hemp0, ?_⟩
      · rw [hj0eq]
        congr 1
        omega
      · intro i' hi'
        have h2 := hmin0 i' hi'
        rwa [show 0 + i' + m.lastFree + 1 = i' + m.lastFree + 1 by omega]
          at h2
    · rw [hfe]
      constructor
      · intro hcontr
        simp at hcontr
      · intro hall
        exact absurd hemp0 (hall j0 (by omega))
    · intro h
      rw [hfe] at h
      simp at h

/-- C6 witness: on storeA (hint 0, slot 1 free) the allocator returns slot 1
and updates the hint to it. -/
theorem findEmpty_characterization_witness :
    (storeA.findEmpty).1 = { storeA with lastFree := 1 } :=
  ((findEmpty_characterization storeA (by decide)).1 1 (by decide)).1

/-- The result of DeleteINodeBlocks on an open store, spelled out. -/
theorem deleteINodeBlocks_eq (m : MFileBlock) (s : INodeRef)
    (hc : m.closed = false) :
    m.DeleteINodeBlocks s =
      ({ m with
         blockMap := zeroSlots m.blockMap
           ((m.blockTrie.prefixedEntries (INodeRef.bytes s)).map
             (fun p => p.2))
         blockTrie := ((m.blockTrie.prefixedEntries (INodeRef.bytes s)).map
           (fun p => p.1)).foldl
             (fun acc k => (Trie.delete acc k).1) m.blockTrie
         size := m.size -
           ((m.blockTrie.prefixedEntries (INodeRef.bytes s)).map
             (fun p => p.2)).length }, none) := by
  rw [MFileBlock.DeleteINodeBlocks, if_neg (by simp [hc])]

/-- C7: on an open store (whose trie values are in range and whose counter
matches the trie), delete-all-for-inode succeeds and removes exactly the
stored block references whose volume and inode components equal the
argument's: their trie entries are gone, all other lookups are unchanged,
exactly the collected map slots are zeroed, and the counter drops by the
number of removed entries. -/
theorem deleteINodeBlocks_spec (m : MFileBlock) (s : INodeRef)
    (hc : m.closed = false) (hs : s.WF)
    (hvals : ∀ p ∈ m.blockTrie, p.2 < m.blockMap.length)
    (hsize : m.size = m.blockTrie.length) :
    (m.DeleteINodeBlocks s).2 = none ∧
    (∀ b : BlockRef, b.WF → b.IsINode s →
      Trie.get ((m.DeleteINodeBlocks s).1).blockTrie (BlockRef.bytes b) =
        none) ∧
    (∀ b : BlockRef, b.WF → ¬ b.IsINode s →
      Trie.get ((m.DeleteINodeBlocks s).1).blockTrie (BlockRef.bytes b) =
        Trie.get m.blockTrie (BlockRef.bytes b)) ∧
    ((m.DeleteINodeBlocks s).1).size +
      (m.blockTrie.prefixedEntries (INodeRef.bytes s)).length = m.size ∧
    (∀ i, i ∈ (m.blockTrie.prefixedEntries (INodeRef.bytes s)).map
        (fun p => p.2) →
      mfileGet ((m.DeleteINodeBlocks s).1).blockMap i = emptyBlock) ∧
    (∀ i, i ∉ (m.blockTrie.prefixedEntries (INodeRef.bytes s)).map
        (fun p => p.2) →
      mfileGet ((m.DeleteINodeBlocks s).1).blockMap i =
        mfileGet m.blockMap i) := by
  have hres := deleteINodeBlocks_eq m s hc
  refine ⟨by rw [hres], ?_, ?_, ?_, ?_, ?_⟩
  · intro b hbWF hbMatch
    rw [hres]
    dsimp only
    rw [Trie.get, List.find?_eq_none.mpr ?hnone]
    · rfl
    case hnone =>
      intro p hp hdec
      have hpk : p.1 = BlockRef.bytes b := of_decide_eq_true hdec
      obtain ⟨hpmem, hpnot⟩ := (mem_foldl_delete _ p).mp hp
      apply hpnot
      have hpre : (INodeRef.bytes s).isPrefixOf p.1 = true := by
        rw [hpk]
        exact (bytes_prefix_iff hs hbWF).mpr hbMatch
      have hpE : p ∈ m.blockTrie.prefixedEntries (INodeRef.bytes s) :=
        List.mem_filter.mpr ⟨hpmem, hpre⟩
      exact List.mem_map.mpr ⟨p, hpE, rfl⟩
  · intro b hbWF hbNot
    rw [hres]
    dsimp only
    apply get_foldl_delete_of_not_mem
    intro hmem
    obtain ⟨p, hpE, hpk⟩ := List.mem_map.mp hmem
    have hpre : (INodeRef.bytes s).isPrefixOf p.1 = true :=
      (List.mem_filter.mp hpE).2
    rw [hpk] at hpre
    exact hbNot ((bytes_prefix_iff hs hbWF).mp hpre)
  · rw [hres]
    dsimp only
    have hle : (m.blockTrie.prefixedEntries (INodeRef.bytes s)).length ≤
        m.size := by
      rw [hsize]
      exact List.length_filter_le _ _
    rw [List.length_map]
    omega
  · intro i hi
    rw [hres]
    dsimp only
    obtain ⟨p, hpE, hpv⟩ := List.mem_map.mp hi
    have hpmem : p ∈ m.blockTrie := (List.mem_filter.mp hpE).1
    exact zeroSlots_getD_mem hi _ (hpv ▸ hvals p hpmem)
  · intro i hi
    rw [hres]
    dsimp only
    exact zeroSlots_getD_not_mem hi _

/-- C7 witness: deleting inode (1,1) from storeB removes refA and leaves
refC untouched. -/
theorem deleteINodeBlocks_spec_witness :
    Trie.get ((storeB.DeleteINodeBlocks irefA).1).blockTrie
      (BlockRef.bytes refA) = none ∧
    Trie.get ((storeB.DeleteINodeBlocks irefA).1).blockTrie
      (BlockRef.bytes refC) = Trie.get storeB.blockTrie (BlockRef.bytes refC) := by
  have h := deleteINodeBlocks_spec storeB irefA (by decide) (by decide)
    (by decide) (by decide)
  exact ⟨h.2.1 refA (by decide) (by decide), h.2.2.1 refC (by decide) (by decide)⟩

/-- C10: delete-all-for-inode on an open store storing no reference of the
given inode returns success (nil) and leaves the store — trie, map file and
counter — unchanged, unlike single-block delete of a missing key, which
returns the not-found error and also leaves the store unchanged. -/
theorem deleteINodeBlocks_empty (m : MFileBlock) (s : INodeRef)
    (hc : m.closed = false) (hs : s.WF)
    (hkeys : ∀ p ∈ m.blockTrie, ∃ b : BlockRef, b.WF ∧
      p.1 = BlockRef.bytes b ∧ ¬ b.IsINode s) :
    m.DeleteINodeBlocks s = (m, none) ∧
    ∀ b : BlockRef, Trie.get m.blockTrie (BlockRef.bytes b) = none →
      m.DeleteBlock b = (m, some StoreErr.blockNotExist) := by
  have hE : m.blockTrie.prefixedEntries (INodeRef.bytes s) = [] := by
    rw [Trie.prefixedEntries, List.filter_eq_nil_iff]
    intro p hp
    obtain ⟨b, hbWF, hpk, hbNot⟩ := hkeys p hp
    rw [hpk]
    intro hpre
    exact hbNot ((bytes_prefix_iff hs hbWF).mp hpre)
  constructor
  · rw [deleteINodeBlocks_eq m s hc, hE]
    rfl
  · intro b hb
    rw [MFileBlock.DeleteBlock, if_neg (by simp [hc])]
    have hfi : m.findIndex b = none := hb
    rw [hfi]

/-- C10 witness: deleting the unstored inode (9,9) from storeB succeeds and
changes nothing. -/
theorem deleteINodeBlocks_empty_witness :
    storeB.DeleteINodeBlocks irefB = (storeB, none) := by
  refine (deleteINodeBlocks_empty storeB irefB (by decide) (by decide) ?_).1
  intro p hp
  have hp2 : p = (BlockRef.bytes refA, 0) ∨ p = (BlockRef.bytes refC, 1) := by
    simpa [storeB] using hp
  rcases hp2 with rfl | rfl
  · exact ⟨refA, by decide, rfl, by decide⟩
  · exact ⟨refC, by decide, rfl, by decide⟩

/-- C8 counterexample: decoding a block reference from the empty buffer —
a buffer of wrong length — returns the zero reference instead of aborting. -/
theorem fromBytes_short_counterexample :
    BlockRefFromBytes [] = some { Volume := 0, INode := 0, Index := 0 } ∧
    ([] : List Nat).length ≠ BlockRefByteSize := by decide

/-- C8 amended: encoding allocates its own buffer and asserts the result is
exactly 24 bytes — the assertion never fires; decoding from a buffer shorter
than 24 bytes does not abort: the read error is discarded and the zero
reference returned; decoding 24 or more bytes decodes the first 24, making
decode a left inverse of encode on in-range references. -/
theorem codec_amended :
    (∀ b : BlockRef, BlockRef.ToBytes b = some (BlockRef.bytes b) ∧
      (BlockRef.bytes b).length = BlockRefByteSize) ∧
    (∀ l : List Nat, l.length < BlockRefByteSize →
      BlockRefFromBytes l = some { Volume := 0, INode := 0, Index := 0 }) ∧
    (∀ b : BlockRef, b.WF → BlockRefFromBytes (BlockRef.bytes b) = some b) := by
  refine ⟨fun b => ⟨block_tobytes_eq b, block_bytes_length b⟩, ?_,
    fun b hb => fromBytes_bytes hb⟩
  intro l hl
  rw [BlockRefFromBytes, if_pos hl]

/-- C8 amended witness: round trip at refB; short decode at a 1-byte
buffer. -/
theorem codec_amended_witness :
    BlockRefFromBytes (BlockRef.bytes refB) = some refB ∧
    BlockRefFromBytes [0] = some { Volume := 0, INode := 0, Index := 0 } :=
  ⟨codec_amended.2.2 refB (by decide), codec_amended.2.1 [0] (by decide)⟩

/-- C9 counterexample: creating a block store with a kind that was never
registered does not return an error to the caller: the map lookup yields the
nil constructor and calling it aborts the process (none). -/
theorem create_unknown_counterexample :
    CreateBlockStore [] "unregistered" [] [] 1 = none := rfl

/-- C9 amended: creating by kind invokes the registered constructor with the
given arguments when the kind is registered; for a kind absent from the
registry the creation crashes (nil constructor call) instead of returning an
error. -/
theorem create_blockstore_amended (reg : BlockStoreRegistry) (kind : String)
    (dslots mslots : Slots) (blockSize : Nat) :
    (∀ q, reg.find? (fun p => p.1 == kind) = some q →
      CreateBlockStore reg kind dslots mslots blockSize =
        some (q.2 dslots mslots blockSize)) ∧
    (reg.find? (fun p => p.1 == kind) = none →
      CreateBlockStore reg kind dslots mslots blockSize = none) := by
  constructor
  · intro q hq
    rw [CreateBlockStore, hq]
    rfl
  · intro hq
    rw [CreateBlockStore, hq]
    rfl

/-- C9 amended witness: with the mfile backend registered, creation by kind
"mfile" invokes newMFileBlockStore on the given arguments. -/
theorem create_blockstore_witness :
    RegisterBlockStore [] "mfile" newMFileBlockStore = some regMfile ∧
    CreateBlockStore regMfile "mfile" dupData dupSlots 1 =
      some (newMFileBlockStore dupData dupSlots 1) :=
  ⟨rfl, (create_blockstore_amended regMfile "mfile" dupData dupSlots 1).1
    ("mfile", newMFileBlockStore) rfl⟩

end Agro
